import Mathlib

/-!
Verification development for the copilot-api gateway core.

The definitions below are a shallow embedding of the repository's
TypeScript source:

* `src/models.ts` — `TokenManager` (expiry check, refresh coordination,
  the 401 re-authentication path of `doRefresh`, device-code polling);
* `src/utils.ts` — `isTokenExpired`, `RateLimiter.acquire`,
  `CircuitBreaker` (`execute` / `recordFailure` / `trip` / `reset`);
* the completion provider file — `createCompletion` SSE drain loop and
  `executeWithRetry`.

JavaScript numbers are modelled as `Int`/`Nat`; `null`/`undefined` as
`Option`; thrown errors as explicit result constructors.  JavaScript
truthiness on strings/numbers (`!x`) is modelled explicitly where the
source relies on it (empty string and `0` are falsy).
-/

namespace CopilotApi

/-! ## Token expiry (src/models.ts `isExpired`, src/utils.ts `isTokenExpired`)

`isExpired()` in `TokenManager`:
`return !this.expiresAt || Date.now() >= this.expiresAt - 5 * 60 * 1000;`
`!this.expiresAt` is true when `expiresAt` is `null` or `0`. -/

def isExpired (expiresAt : Option Int) (now : Int) : Bool :=
  match expiresAt with
  | none => true
  | some t => t == 0 || decide (now ≥ t - 5 * 60 * 1000)

/-- Embedding of `isTokenExpired(expiresAt, marginMs)` from `src/utils.ts`
(`if (!expiresAt) return true; ...; return Date.now() >= expiresAt - marginMs`). -/
def isTokenExpired (expiresAt : Option Int) (marginMs : Int) (now : Int) : Bool :=
  match expiresAt with
  | none => true
  | some t => t == 0 || decide (now ≥ t - marginMs)

/-- The guard of `getValidToken()` (src/models.ts line 357):
`if (!this.copilotToken || this.isExpired()) await this.refresh();`. -/
def needsRefresh (copilotToken : Option String) (expiresAt : Option Int) (now : Int) : Bool :=
  copilotToken.isNone || isExpired expiresAt now

/-! ## `doRefresh` 401 re-authentication path (src/models.ts lines 399-541)

The exchange (`fetch` of the copilot-token endpoint) is driven by the
sequence of upstream responses.  On a non-ok response with status 401 the
code removes the token file, runs `authenticate()`, and recursively calls
`doRefresh()`; on any other non-ok response it throws an
`AuthenticationError`; on an ok response it requires a `token` field. -/

structure ExchangeResponse where
  status : Nat
  token : Option String
  expiresIn : Option Int
deriving DecidableEq, Repr

inductive RefreshOutcome
  | success (tok : String)
  | authError (msg : String)
deriving DecidableEq, Repr

structure RefreshTrace where
  /-- `none` means the recursion was still re-authenticating when the
  supplied response sequence ran out (no termination reached). -/
  result : Option RefreshOutcome
  exchanges : Nat
  reauths : Nat
deriving DecidableEq, Repr

/-- `response.ok` in fetch: status in 200..299. -/
def isOkStatus (s : Nat) : Bool := 200 ≤ s && s < 300

/-- Embedding of `doRefresh()` consuming one upstream exchange response per
call, counting exchange calls and `authenticate()` re-authorization cycles. -/
def doRefreshTrace : List ExchangeResponse → RefreshTrace
  | [] => ⟨none, 0, 0⟩
  | r :: rest =>
    if isOkStatus r.status then
      match r.token with
      | some tok => ⟨some (.success tok), 1, 0⟩
      | none => ⟨some (.authError "Invalid token response: missing token field"), 1, 0⟩
    else if r.status == 401 then
      let t := doRefreshTrace rest
      ⟨t.result, t.exchanges + 1, t.reauths + 1⟩
    else
      ⟨some (.authError "Failed to refresh token"), 1, 0⟩

/-- An upstream 401 response (no body fields relevant to the 401 path). -/
def resp401 : ExchangeResponse := ⟨401, none, none⟩

/-! ## Device-code polling (src/models.ts `pollForToken`, lines 663-773)

One loop iteration: fetch the access-token endpoint, read the body text,
`JSON.parse` it (parse failure → sleep and continue), then
  * non-ok status: 428 → sleep(interval) and continue, otherwise throw
    `AuthenticationError`;
  * `data.error` truthy: `authorization_pending` → sleep(interval),
    `slow_down` → sleep(interval * 2), otherwise throw;
  * no `data.access_token` (falsy) → throw; otherwise return the token.
A rejected fetch (network error) is caught, logged and retried after
`sleep(interval)`. -/

structure PollBody where
  error : Option String
  accessToken : Option String
deriving DecidableEq, Repr

inductive PollResponse
  | invalidJson
  | http (status : Nat) (body : PollBody)
  | netError
deriving DecidableEq, Repr

inductive PollStepResult
  | wait (ms : Nat)
  | success (tok : String)
  | authFailure (msg : String)
deriving DecidableEq, Repr

/-- Embedding of one iteration of the polling loop body. -/
def pollStep (interval : Nat) (r : PollResponse) : PollStepResult :=
  match r with
  | .invalidJson => .wait interval
  | .netError => .wait interval
  | .http status body =>
    if !(isOkStatus status) then
      if status == 428 then .wait interval
      else .authFailure "Token polling failed with status"
    else
      let e := body.error.getD ""
      if e == "" then
        let tok := body.accessToken.getD ""
        if tok == "" then .authFailure "No access token in response"
        else .success tok
      else if e == "authorization_pending" then .wait interval
      else if e == "slow_down" then .wait (interval * 2)
      else .authFailure "Token polling failed"

/-- Runs the polling loop over a list of upstream responses, collecting the
sleep durations in order; stops at the first success or thrown error.  An
empty remainder means the loop was still polling when the responses ran out. -/
def pollRun (interval : Nat) : List PollResponse → List Nat × Option PollStepResult
  | [] => ([], none)
  | r :: rest =>
    match pollStep interval r with
    | .wait w =>
      let p := pollRun interval rest
      (w :: p.1, p.2)
    | .success t => ([], some (.success t))
    | .authFailure m => ([], some (.authFailure m))

/-- Whether a response leaves the loop polling (a sleep happens after it). -/
def isTransient (interval : Nat) (r : PollResponse) : Bool :=
  match pollStep interval r with
  | .wait _ => true
  | _ => false

/-- The sleep duration the loop performs after a transient response. -/
def respWait (interval : Nat) (r : PollResponse) : Nat :=
  match pollStep interval r with
  | .wait w => w
  | _ => 0

/-! ## Circuit breaker (src/utils.ts lines 188-266)

`execute` rejects while `OPEN`, or while `HALF_OPEN` with the probe budget
exhausted; otherwise it runs the operation, resetting on half-open success
and calling `recordFailure()` on failure.  `recordFailure` in `CLOSED`
increments `failures` and trips at the threshold; a success while `CLOSED`
changes nothing (`reset()` is invoked only from the half-open state).
The `setTimeout`-driven `OPEN → HALF_OPEN` transition is time-based and is
not exercised by the sequences considered here (no timer-elapse events). -/

inductive CBState
  | closed
  | opened
  | halfOpen
deriving DecidableEq, Repr

structure CB where
  state : CBState
  failures : Nat
  halfOpenCalls : Nat
deriving DecidableEq, Repr

def CB.init : CB := ⟨.closed, 0, 0⟩

inductive OpResult
  | success
  | failure
deriving DecidableEq, Repr

/-- Embedding of `recordFailure()` (`trip()` inlined as entering `opened`). -/
def recordFailure (threshold : Nat) (cb : CB) : CB :=
  match cb.state with
  | .closed =>
    let f := cb.failures + 1
    if threshold ≤ f then { cb with state := .opened, failures := f }
    else { cb with failures := f }
  | .halfOpen => { cb with state := .opened }
  | .opened => cb

/-- Embedding of `execute(fn)`; the operation's outcome is supplied as
`r`.  The returned `Bool` is whether the wrapped operation was actually
invoked (`false` = rejected with `CIRCUIT_OPEN`). -/
def cbExecute (threshold maxHalf : Nat) (cb : CB) (r : OpResult) : CB × Bool :=
  match cb.state with
  | .opened => (cb, false)
  | .halfOpen =>
    if maxHalf ≤ cb.halfOpenCalls then (cb, false)
    else
      let cb1 : CB := { cb with halfOpenCalls := cb.halfOpenCalls + 1 }
      match r with
      | .success => (⟨.closed, 0, 0⟩, true)
      | .failure => (recordFailure threshold cb1, true)
  | .closed =>
    match r with
    | .success => (cb, true)
    | .failure => (recordFailure threshold cb, true)

/-- Runs a sequence of operations through the breaker. -/
def runCB (threshold maxHalf : Nat) (cb : CB) : List OpResult → CB
  | [] => cb
  | r :: rs => runCB threshold maxHalf (cbExecute threshold maxHalf cb r).1 rs

/-- Length of the leading block of failures. -/
def leadingFailures : List OpResult → Nat
  | .failure :: rs => leadingFailures rs + 1
  | _ => 0

/-- Spec-side notion: the sequence contains a run of `t` consecutive
failures. -/
def hasFailureRun (t : Nat) (ops : List OpResult) : Bool :=
  ops.tails.any fun s => decide (t ≤ leadingFailures s)

/-- Total number of failure outcomes in the sequence. -/
def countFailures (ops : List OpResult) : Nat :=
  ops.countP (· == .failure)

/-! ## Rate limiter (src/utils.ts `RateLimiter.acquire`, lines 162-182)

The window is the list of recorded timestamps; `acquire` prunes entries
older than 60 s, rejects when the per-minute limit or the 1-second burst
limit is reached, and records `now` only when admitting. -/

def pruneWindow (now : Int) (ts : List Int) : List Int :=
  ts.filter fun t => decide (now - t < 60 * 1000)

/-- Embedding of `acquire()`: returns the new timestamp window and the
admission decision. -/
def acquire (limit burst : Nat) (ts : List Int) (now : Int) : List Int × Bool :=
  let pruned := pruneWindow now ts
  if limit ≤ pruned.length then (pruned, false)
  else
    let recentCount := (pruned.filter fun t => decide (now - t < 1000)).length
    if burst ≤ recentCount then (pruned, false)
    else (pruned ++ [now], true)

/-! ## Retry with backoff (completion provider `executeWithRetry`)

`for (attempt = 1; attempt <= maxRetries; attempt++) { try op; catch:
  lastError := e; if (attempt < maxRetries) sleep(min(1000*2^(attempt-1),
  5000)); ... } throw lastError ?? generic`.
The operation's outcome at each attempt is supplied by `op`. -/

def backoffDelay (attempt : Nat) : Nat :=
  min (1000 * 2 ^ (attempt - 1)) 5000

structure RetryTrace (E T : Type) where
  /-- `Except.error none` models the `"Operation failed after retries"`
  fallback thrown when the loop body never ran (`maxRetries = 0`). -/
  result : Except (Option E) T
  attemptsMade : Nat
  delays : List Nat

/-- Loop of `executeWithRetry` with `k` the current attempt number and
`remaining` the attempts still allowed (including the current one). -/
def runRetry (op : Nat → Except E T) : Nat → Nat → Option E → RetryTrace E T
  | _, 0, last => ⟨.error last, 0, []⟩
  | k, r + 1, _ =>
    match op k with
    | .ok v => ⟨.ok v, 1, []⟩
    | .error e =>
      if r = 0 then ⟨.error (some e), 1, []⟩
      else
        let t := runRetry op (k + 1) r (some e)
        ⟨t.result, t.attemptsMade + 1, backoffDelay k :: t.delays⟩

/-- Embedding of `executeWithRetry(operation)` with `maxR = CONFIG.maxRetries`. -/
def executeWithRetry (maxR : Nat) (op : Nat → Except E T) : RetryTrace E T :=
  runRetry op 1 maxR none

/-! ## Buffered SSE drain (completion provider `createCompletion`)

The reader loop: each chunk is split into non-blank lines; a line equal to
`data: [DONE]` sets `done` and breaks out of the line loop (the rest of
that chunk and all later chunks are not processed); a line with the
`data: ` prefix is `JSON.parse`d — on success, a truthy
`choices[0].text` is appended to `fullText`, on failure the line is
skipped.  Lines are modelled by the classification the code applies to
them; `dataText t` stands for a well-formed `data: ` JSON fragment whose
`choices[0].text` is the truthy (non-empty) string `t`. -/

inductive SSELine
  | doneMark
  | dataText (t : String)
  | dataNoText
  | dataMalformed
  | otherLine
deriving DecidableEq, Repr

/-- Processes the lines of one decoded chunk, extending the accumulated
text; the `Bool` is the `done` flag after the chunk. -/
def processChunk (acc : String) : List SSELine → String × Bool
  | [] => (acc, false)
  | .doneMark :: _ => (acc, true)
  | .dataText t :: rest => processChunk (acc ++ t) rest
  | .dataNoText :: rest => processChunk acc rest
  | .dataMalformed :: rest => processChunk acc rest
  | .otherLine :: rest => processChunk acc rest

/-- The `while (!done)` reader loop over the sequence of chunks. -/
def drainChunks (acc : String) : List (List SSELine) → String
  | [] => acc
  | c :: cs =>
    let p := processChunk acc c
    if p.2 then p.1 else drainChunks p.1 cs

/-- Embedding of the buffered completion result:
`fullText || "\r"` — the carriage-return placeholder when empty. -/
def createCompletionText (chunks : List (List SSELine)) : String :=
  let t := drainChunks "" chunks
  if t.isEmpty then "\r" else t

/-- Text contributed by one line (spec side). -/
def textOf : SSELine → String
  | .dataText t => t
  | _ => ""

/-- Concatenation of the text fields of a list of lines (spec side). -/
def concatTexts : List SSELine → String
  | [] => ""
  | l :: ls => textOf l ++ concatTexts ls

/-- Modelled from the spec: the in-order concatenation of the text fields
of all well-formed `data: ` fragments received before the `data: [DONE]`
line, over the whole body. -/
def specSSEConcat (chunks : List (List SSELine)) : String :=
  concatTexts (chunks.flatten.takeWhile fun l => !(l == .doneMark))

/-! ## Poll-response debug log (src/models.ts line 714)

`debug(\x60Poll response [${response.status}]: ${JSON.stringify(data)}\x60)`
is emitted for every parsed poll response, including the final successful
one whose body carries the raw `access_token`.  For a body
`{access_token: tok}` (token without JSON-escapable characters),
`JSON.stringify` yields `\x7b"access_token":"<tok>"\x7d`. -/

def jsonOfAccessToken (tok : String) : String :=
  "\x7b\"access_token\":\"" ++ tok ++ "\"\x7d"

/-- The debug log line produced for a successful (HTTP 200) poll response. -/
def pollSuccessLogLine (tok : String) : String :=
  "Poll response [200]: " ++ jsonOfAccessToken tok

/-! ## Single-flight refresh coordination (src/models.ts lines 245-394)

`getValidToken()` / `refresh()` under the JavaScript run-to-completion
model: code between two `await` suspension points executes atomically.
The synchronous segment of a caller entering `getValidToken()` runs the
cached-token check and, inside `refresh()`, either joins the promise in
`this.refreshPromise` or installs a fresh `doRefresh()` promise (whose
synchronous prefix clears `copilotToken`/`expiresAt`).  A flight's
upstream exchange and its resolution are one event: between them the only
shared field it touches is `refreshPromise`, which stays set.  When the
flight's promise settles, each caller awaiting it resumes: on a rejection
the caller's `await` rethrows (surfaced as an `AuthenticationError`); on
fulfilment the caller returns `this.copilotToken` just written by the
flight. -/

inductive FlightOutcome
  | success (tok : String)
  | failure
deriving DecidableEq, Repr

inductive CallerPhase
  | ready
  | waitingFlight (f : Nat)
  | gotToken (t : String)
  | gotError
deriving DecidableEq, Repr

structure TMState (n : Nat) where
  copilotToken : Option String
  expiresAt : Option Int
  now : Int
  inflight : Option Nat
  nextFlight : Nat
  exchanges : Nat
  callers : Fin n → CallerPhase

inductive TMLabel (n : Nat)
  | enter (i : Fin n)
  | resolve
deriving DecidableEq

def initTM (n : Nat) : TMState n :=
  ⟨none, none, 0, none, 0, 0, fun _ => .ready⟩

/-- The synchronous segment of `refresh()` as run by caller `i`: join the
in-flight refresh, or start a new one (running `doRefresh`'s synchronous
prefix, which clears the cached token). -/
def startOrJoin (st : TMState n) (i : Fin n) : TMState n :=
  match st.inflight with
  | some f => { st with callers := Function.update st.callers i (.waitingFlight f) }
  | none =>
    { st with
      copilotToken := none
      expiresAt := none
      inflight := some st.nextFlight
      nextFlight := st.nextFlight + 1
      callers := Function.update st.callers i (.waitingFlight st.nextFlight) }

/-- The synchronous entry segment of `getValidToken()` for caller `i`:
`if (!this.copilotToken || this.isExpired()) await this.refresh();`
(a caller already past its entry is unaffected). -/
def enterStep (st : TMState n) (i : Fin n) : TMState n :=
  match st.callers i with
  | .ready =>
    match st.copilotToken with
    | some t =>
      if isExpired st.expiresAt st.now then startOrJoin st i
      else { st with callers := Function.update st.callers i (.gotToken t) }
    | none => startOrJoin st i
  | _ => st

/-- Resolution of a caller that was awaiting flight `f`, given the flight's
outcome and the token field it left behind. -/
def resumeCaller (f : Nat) (o : FlightOutcome) (c : CallerPhase) : CallerPhase :=
  match c with
  | .waitingFlight g =>
    if g == f then
      match o with
      | .success tok => .gotToken tok
      | .failure => .gotError
    else c
  | _ => c

/-- The active flight performs its upstream exchange and settles: on
success `copilotToken` is stored; `refreshPromise` is cleared in the
`finally`; the awaiting callers resume against the new state. -/
def resolveStep (oracle : Nat → FlightOutcome) (st : TMState n) : TMState n :=
  match st.inflight with
  | none => st
  | some f =>
    match oracle f with
    | .success tok =>
      { st with
        copilotToken := some tok
        inflight := none
        exchanges := st.exchanges + 1
        callers := fun j => resumeCaller f (.success tok) (st.callers j) }
    | .failure =>
      { st with
        inflight := none
        exchanges := st.exchanges + 1
        callers := fun j => resumeCaller f .failure (st.callers j) }

def stepTM (oracle : Nat → FlightOutcome) (st : TMState n) : TMLabel n → TMState n
  | .enter i => enterStep st i
  | .resolve => resolveStep oracle st

def runTM (oracle : Nat → FlightOutcome) (st : TMState n) : List (TMLabel n) → TMState n
  | [] => st
  | l :: ls => runTM oracle (stepTM oracle st l) ls

/-- The result a caller sharing a flight with outcome `o` ends with. -/
def flightResult (o : FlightOutcome) : CallerPhase :=
  match o with
  | .success tok => .gotToken tok
  | .failure => .gotError

/-! Named concrete poll responses used in the theorems below. -/

def slowDownResp : PollResponse := .http 200 ⟨some "slow_down", none⟩

def pendingResp : PollResponse := .http 200 ⟨some "authorization_pending", none⟩

def resp500 : PollResponse := .http 500 ⟨none, none⟩

/-! # Theorems -/

/-- C2 counterexample: with a cached token and `expiresAt = null`, the
claim predicts `getValidToken()` serves the cache without refreshing
(`needsRefresh = false`); the code computes `needsRefresh = true` —
`isExpired` treats a null expiry as expired. -/
theorem c2_counterexample :
    needsRefresh (some "tok") none 0 = true ∧ isExpired none 0 = true :=
  ⟨rfl, rfl⟩

/-- C2 amended: a cached token with unknown expiry (`expiresAt = null`) is
always considered expired — every `getValidToken()` call performs a
refresh; the same holds for `isTokenExpired` with the 5-minute margin. -/
theorem c2_amended : ∀ (tok : String) (now : Int),
    isExpired none now = true ∧
    needsRefresh (some tok) none now = true ∧
    isTokenExpired none (5 * 60 * 1000) now = true :=
  fun _ _ => ⟨rfl, rfl, rfl⟩

/-- C3 counterexample: on three consecutive 401 exchange responses the
claim predicts exactly one re-authorization cycle followed by a terminal
authentication error; the code runs three re-authorization cycles and is
still recursing (no terminal result) when the responses run out. -/
theorem c3_counterexample :
    doRefreshTrace [resp401, resp401, resp401] = ⟨none, 3, 3⟩ ∧ (3 : Nat) ≠ 1 := by
  decide

/-- C3 amended: every 401 from the exchange endpoint discards the stored
secret, re-runs device authorization and retries the exchange — this
repeats for each consecutive 401 with no retry bound; a non-401,
non-2xx response terminates the refresh with an authentication error. -/
theorem c3_amended :
    (∀ (nRe : Nat) (rest : List ExchangeResponse),
      doRefreshTrace (List.replicate nRe resp401 ++ rest) =
        ⟨(doRefreshTrace rest).result,
         (doRefreshTrace rest).exchanges + nRe,
         (doRefreshTrace rest).reauths + nRe⟩) ∧
    (∀ (r : ExchangeResponse) (rest : List ExchangeResponse),
      isOkStatus r.status = false → r.status ≠ 401 →
      doRefreshTrace (r :: rest) =
        ⟨some (.authError "Failed to refresh token"), 1, 0⟩) := by
  constructor
  · intro nRe rest
    induction nRe with
    | zero => simp [doRefreshTrace]
    | succ m ih =>
      have hrepl : List.replicate (m + 1) resp401 ++ rest =
          resp401 :: (List.replicate m resp401 ++ rest) := by
        simp [List.replicate]
      have hstep : ∀ l, doRefreshTrace (resp401 :: l) =
          ⟨(doRefreshTrace l).result, (doRefreshTrace l).exchanges + 1,
           (doRefreshTrace l).reauths + 1⟩ := by
        intro l
        simp [doRefreshTrace, resp401, isOkStatus]
      rw [hrepl, hstep, ih]
      simp [Nat.add_assoc]
  · intro r rest hok h401
    have hb : (r.status == 401) = false := by
      simpa using h401
    simp [doRefreshTrace, hok, hb]

/-- C3 amended witness: two 401 responses followed by a 500 response give
three exchange calls, two re-authorization cycles, and a terminal
authentication error. -/
theorem c3_amended_witness :
    doRefreshTrace [resp401, resp401, ⟨500, none, none⟩] =
      ⟨some (.authError "Failed to refresh token"), 3, 2⟩ := by
  have h1 := c3_amended.1 2 [⟨500, none, none⟩]
  have h2 := c3_amended.2 ⟨500, none, none⟩ [] (by decide) (by decide)
  simp only [List.replicate, List.cons_append, List.nil_append] at h1
  rw [h1, h2]

/-- C6 counterexample: with `interval = 5000`, a `slow_down` response
followed by an `authorization_pending` response produces waits
`[10000, 5000]` — the wait after the second poll reverts to the base
interval, while the claim predicts every subsequent wait is doubled. -/
theorem c6_counterexample :
    (pollRun 5000 [slowDownResp, pendingResp]).1 = [10000, 5000] ∧
    (5000 : Nat) ≠ 10000 := by
  decide

/-- C6 amended: each wait depends only on the response it follows —
`slow_down` doubles only the single wait immediately after it
(`interval * 2`); subsequent polls use the unchanged base interval. -/
theorem c6_amended : ∀ (interval : Nat) (rs : List PollResponse),
    (pollRun interval rs).1 =
      (rs.takeWhile (isTransient interval)).map (respWait interval) ∧
    respWait interval slowDownResp = interval * 2 ∧
    respWait interval pendingResp = interval := by
  intro interval rs
  refine ⟨?_, rfl, rfl⟩
  induction rs with
  | nil => rfl
  | cons r rest ih =>
    cases h : pollStep interval r with
    | wait w =>
      simp [pollRun, h, List.takeWhile_cons, isTransient, respWait, ih]
    | success t =>
      simp [pollRun, h, List.takeWhile_cons, isTransient]
    | authFailure m =>
      simp [pollRun, h, List.takeWhile_cons, isTransient]

/-- C7 counterexample: an HTTP 500 poll response with a JSON body matching
no named OAuth error aborts polling with an authentication error; the
claim predicts the client logs it and keeps polling at the current
interval. -/
theorem c7_counterexample :
    pollStep 5000 resp500 = .authFailure "Token polling failed with status" ∧
    isTransient 5000 resp500 = false ∧
    pollRun 5000 [resp500] =
      ([], some (.authFailure "Token polling failed with status")) := by
  decide

/-- C7 amended: among non-2xx poll responses only HTTP 428 is treated as
transient; every other non-2xx status aborts polling immediately with an
authentication error regardless of the body; a named error other than
`authorization_pending`/`slow_down` also aborts. -/
theorem c7_amended :
    (∀ (interval status : Nat) (body : PollBody), isOkStatus status = false →
      pollStep interval (.http status body) =
        if status == 428 then .wait interval
        else .authFailure "Token polling failed with status") ∧
    (∀ (interval : Nat) (e : String) (tok : Option String),
      (e == "") = false → (e == "authorization_pending") = false →
      (e == "slow_down") = false →
      pollStep interval (.http 200 ⟨some e, tok⟩) =
        .authFailure "Token polling failed") := by
  constructor
  · intro interval status body hok
    simp [pollStep, hok]
  · intro interval e tok h0 h1 h2
    simp [pollStep, isOkStatus, h0, h1, h2]

/-- C7 amended witness: HTTP 500 aborts with the status error; an
`access_denied` named error aborts with the named-error failure. -/
theorem c7_amended_witness :
    pollStep 5000 resp500 = .authFailure "Token polling failed with status" ∧
    pollStep 5000 (.http 200 ⟨some "access_denied", none⟩) =
      .authFailure "Token polling failed" := by
  constructor
  · have h := c7_amended.1 5000 500 ⟨none, none⟩ (by decide)
    simpa [resp500] using h
  · exact c7_amended.2 5000 "access_denied" none (by decide) (by decide) (by decide)

/-- C9: the code at src/models.ts line 714 debug-logs the full parsed poll
response; for the successful poll the raw access token therefore appears
verbatim inside a log line, not as a fixed-length prefix or suffix. -/
theorem c9_secret_in_log : ∀ tok : String,
    ∃ l r, pollSuccessLogLine tok = l ++ tok ++ r := by
  intro tok
  exact ⟨"Poll response [200]: \x7b\"access_token\":\"", "\"\x7d", rfl⟩

/-- C10: a rejected `acquire()` leaves the sliding window equal to the
pruned original window — the rejected call's timestamp is not recorded,
so it never counts toward the per-minute or burst limits seen later. -/
theorem c10_reject_frame : ∀ (limit burst : Nat) (ts : List Int) (now : Int),
    (acquire limit burst ts now).2 = false →
    (acquire limit burst ts now).1 = pruneWindow now ts := by
  intro limit burst ts now h
  by_cases h1 : limit ≤ (pruneWindow now ts).length
  · simp [acquire, h1]
  · by_cases h2 : burst ≤
        ((pruneWindow now ts).filter fun t => decide (now - t < 1000)).length
    · simp [acquire, h1, h2]
    · exfalso
      simp [acquire, h1, h2] at h

/-- C10 witness: with a zero per-minute limit the call is rejected and the
window stays the pruned original. -/
theorem c10_reject_frame_witness :
    (acquire 0 0 [] 0).2 = false ∧ (acquire 0 0 [] 0).1 = pruneWindow 0 [] :=
  ⟨by decide, c10_reject_frame 0 0 [] 0 (by decide)⟩

/-! ### Circuit breaker lemmas -/

theorem runCB_of_opened (t mh : Nat) :
    ∀ (ops : List OpResult) (cb : CB), cb.state = .opened →
      runCB t mh cb ops = cb := by
  intro ops
  induction ops with
  | nil => intro cb _; rfl
  | cons r rs ih =>
    intro cb h
    have hexec : cbExecute t mh cb r = (cb, false) := by
      unfold cbExecute
      rw [h]
    simp only [runCB, hexec]
    exact ih cb h

theorem runCB_closed_of_lt (t mh : Nat) :
    ∀ (ops : List OpResult) (cb : CB), cb.state = .closed →
      cb.failures + countFailures ops < t →
      runCB t mh cb ops = { cb with failures := cb.failures + countFailures ops } := by
  intro ops
  induction ops with
  | nil =>
    intro cb _ _
    simp [runCB, countFailures]
  | cons r rs ih =>
    intro cb hc hlt
    cases r with
    | success =>
      have hexec : cbExecute t mh cb .success = (cb, true) := by
        unfold cbExecute
        rw [hc]
      have hcount : countFailures (OpResult.success :: rs) = countFailures rs := by
        simp [countFailures]
      rw [hcount] at hlt ⊢
      simp only [runCB, hexec]
      exact ih cb hc hlt
    | failure =>
      have hcount : countFailures (OpResult.failure :: rs) = countFailures rs + 1 := by
        simp [countFailures]
      rw [hcount] at hlt ⊢
      have hnotrip : ¬ t ≤ cb.failures + 1 := by omega
      have hexec : cbExecute t mh cb .failure =
          ({ cb with failures := cb.failures + 1 }, true) := by
        unfold cbExecute recordFailure
        rw [hc]
        simp [hnotrip]
      simp only [runCB, hexec]
      have := ih { cb with failures := cb.failures + 1 } hc (by simp; omega)
      rw [this]
      simp
      omega

theorem runCB_opens_of_le (t mh : Nat) :
    ∀ (ops : List OpResult) (cb : CB), cb.state = .closed →
      cb.failures < t → t ≤ cb.failures + countFailures ops →
      (runCB t mh cb ops).state = .opened := by
  intro ops
  induction ops with
  | nil =>
    intro cb _ hlt hle
    exfalso
    simp [countFailures] at hle
    omega
  | cons r rs ih =>
    intro cb hc hlt hle
    cases r with
    | success =>
      have hexec : cbExecute t mh cb .success = (cb, true) := by
        unfold cbExecute
        rw [hc]
      have hcount : countFailures (OpResult.success :: rs) = countFailures rs := by
        simp [countFailures]
      rw [hcount] at hle
      simp only [runCB, hexec]
      exact ih cb hc hlt hle
    | failure =>
      have hcount : countFailures (OpResult.failure :: rs) = countFailures rs + 1 := by
        simp [countFailures]
      rw [hcount] at hle
      by_cases htrip : t ≤ cb.failures + 1
      · have hexec : cbExecute t mh cb .failure =
            ({ cb with state := .opened, failures := cb.failures + 1 }, true) := by
          unfold cbExecute recordFailure
          rw [hc]
          simp [htrip]
        simp only [runCB, hexec]
        rw [runCB_of_opened t mh rs _ rfl]
      · have hexec : cbExecute t mh cb .failure =
            ({ cb with failures := cb.failures + 1 }, true) := by
          unfold cbExecute recordFailure
          rw [hc]
          simp [htrip]
        simp only [runCB, hexec]
        exact ih _ hc (by simp; omega) (by simp; omega)

/-- C8 counterexample: with `failureThreshold = 3` the sequence
failure, success, failure, success, failure contains no run of three
consecutive failures, yet the breaker ends `Open` — a success while
`Closed` does not reset the failure counter. -/
theorem c8_counterexample :
    (runCB 3 3 CB.init
      [OpResult.failure, .success, .failure, .success, .failure]).state = .opened ∧
    hasFailureRun 3
      [OpResult.failure, .success, .failure, .success, .failure] = false := by
  decide

/-- C8 amended: starting from the initial closed breaker, the breaker ends
`Open` exactly when the cumulative number of failures in the sequence
reaches `failureThreshold` — successes while `Closed` do not reset the
counter, so interleaving successes does not prevent tripping. -/
theorem c8_amended : ∀ (t mh : Nat) (ops : List OpResult), 1 ≤ t →
    ((runCB t mh CB.init ops).state = .opened ↔ t ≤ countFailures ops) := by
  intro t mh ops ht
  constructor
  · intro hopen
    by_contra hcon
    have hlt : CB.init.failures + countFailures ops < t := by
      simp [CB.init]
      omega
    rw [runCB_closed_of_lt t mh ops CB.init rfl hlt] at hopen
    simp [CB.init] at hopen
  · intro hle
    exact runCB_opens_of_le t mh ops CB.init rfl (by simp [CB.init]; omega)
      (by simp [CB.init]; omega)

/-- C8 amended witness: threshold 3 on the interleaved sequence — the
breaker is open, and indeed the cumulative failure count reaches 3. -/
theorem c8_amended_witness :
    ((runCB 3 3 CB.init
        [OpResult.failure, .success, .failure, .success, .failure]).state = .opened ↔
      3 ≤ countFailures [OpResult.failure, .success, .failure, .success, .failure]) ∧
    3 ≤ countFailures [OpResult.failure, .success, .failure, .success, .failure] :=
  ⟨c8_amended 3 3 [OpResult.failure, .success, .failure, .success, .failure] (by decide),
   by decide⟩

/-! ### SSE drain lemmas -/

theorem concatTexts_append : ∀ xs ys : List SSELine,
    concatTexts (xs ++ ys) = concatTexts xs ++ concatTexts ys := by
  intro xs ys
  induction xs with
  | nil => simp [concatTexts, String.empty_append]
  | cons l ls ih => simp [concatTexts, ih, String.append_assoc]

theorem takeWhile_append_of_all {α : Type} (p : α → Bool) :
    ∀ (c l : List α), (∀ x ∈ c, p x = true) →
      (c ++ l).takeWhile p = c ++ l.takeWhile p := by
  intro c l
  induction c with
  | nil => intro _; simp
  | cons a as ih =>
    intro h
    have ha : p a = true := h a (by simp)
    simp only [List.cons_append, List.takeWhile_cons, ha, if_true]
    rw [ih fun x hx => h x (by simp [hx])]

theorem takeWhile_append_of_stop {α : Type} (p : α → Bool) :
    ∀ (c l : List α), (c.any fun x => !p x) = true →
      (c ++ l).takeWhile p = c.takeWhile p := by
  intro c l
  induction c with
  | nil => intro h; simp at h
  | cons a as ih =>
    intro h
    by_cases ha : p a = true
    · have has : (as.any fun x => !p x) = true := by
        simpa [List.any_cons, ha] using h
      simp only [List.cons_append, List.takeWhile_cons, ha, if_true]
      rw [ih has]
    · have ha' : p a = false := by
        revert ha
        cases p a <;> simp
      simp [List.takeWhile_cons, ha']

theorem takeWhile_eq_self_of_all {α : Type} (p : α → Bool) :
    ∀ c : List α, (∀ x ∈ c, p x = true) → c.takeWhile p = c := by
  intro c
  induction c with
  | nil => intro _; rfl
  | cons a as ih =>
    intro h
    have ha : p a = true := h a (by simp)
    simp only [List.takeWhile_cons, ha, if_true]
    rw [ih fun x hx => h x (by simp [hx])]

theorem processChunk_eq : ∀ (c : List SSELine) (acc : String),
    processChunk acc c =
      (acc ++ concatTexts (c.takeWhile fun l => !(l == SSELine.doneMark)),
       c.any fun l => l == SSELine.doneMark) := by
  intro c
  induction c with
  | nil =>
    intro acc
    simp [processChunk, concatTexts, String.append_empty]
  | cons l ls ih =>
    intro acc
    cases l with
    | doneMark =>
      simp [processChunk, concatTexts, String.append_empty, List.takeWhile_cons]
    | dataText t =>
      simp [processChunk, ih, concatTexts, textOf, List.takeWhile_cons,
        String.append_assoc]
    | dataNoText =>
      simp [processChunk, ih, concatTexts, textOf, List.takeWhile_cons,
        String.empty_append]
    | dataMalformed =>
      simp [processChunk, ih, concatTexts, textOf, List.takeWhile_cons,
        String.empty_append]
    | otherLine =>
      simp [processChunk, ih, concatTexts, textOf, List.takeWhile_cons,
        String.empty_append]

theorem drainChunks_eq : ∀ (chunks : List (List SSELine)) (acc : String),
    drainChunks acc chunks = acc ++ specSSEConcat chunks := by
  intro chunks
  induction chunks with
  | nil =>
    intro acc
    simp [drainChunks, specSSEConcat, concatTexts, String.append_empty]
  | cons c cs ih =>
    intro acc
    by_cases hdone : (c.any fun l => l == SSELine.doneMark) = true
    · have hstop : (c.any fun x => !(fun l => !(l == SSELine.doneMark)) x) = true := by
        simpa using hdone
      have hspec : specSSEConcat (c :: cs) =
          concatTexts (c.takeWhile fun l => !(l == SSELine.doneMark)) := by
        unfold specSSEConcat
        rw [List.flatten_cons, takeWhile_append_of_stop _ c _ hstop]
      simp only [drainChunks, processChunk_eq, hdone, if_true]
      rw [hspec]
    · have hdone' : (c.any fun l => l == SSELine.doneMark) = false := by
        revert hdone
        cases (c.any fun l => l == SSELine.doneMark) <;> simp
      have hall : ∀ x ∈ c, (fun l => !(l == SSELine.doneMark)) x = true := by
        intro x hx
        have := List.any_eq_false.mp hdone' x hx
        simpa using this
      simp only [drainChunks, processChunk_eq, hdone', if_false, Bool.false_eq_true]
      rw [ih]
      unfold specSSEConcat
      rw [List.flatten_cons, takeWhile_append_of_all _ c _ hall, concatTexts_append,
        takeWhile_eq_self_of_all _ c hall, String.append_assoc]

/-- C4: the buffered completion equals the in-order concatenation of the
text fields of the well-formed `data:` fragments received before the
`data: [DONE]` line (malformed fragments skipped); the concrete body
with fragments "ab", "cd", [DONE] yields "abcd"; an empty accumulation
yields the single-character carriage-return placeholder, never the empty
string. -/
theorem c4_buffered_sse :
    (∀ chunks : List (List SSELine),
      createCompletionText chunks =
        (if specSSEConcat chunks = "" then "\r" else specSSEConcat chunks) ∧
      createCompletionText chunks ≠ "") ∧
    createCompletionText [[.dataText "ab", .dataText "cd", .doneMark]] = "abcd" ∧
    ("\r" : String).length = 1 := by
  have hmain : ∀ chunks, createCompletionText chunks =
      (if specSSEConcat chunks = "" then "\r" else specSSEConcat chunks) := by
    intro chunks
    unfold createCompletionText
    rw [drainChunks_eq, String.empty_append]
    by_cases h : specSSEConcat chunks = ""
    · simp [h, String.isEmpty_iff]
    · simp [h, String.isEmpty_iff]
  refine ⟨fun chunks => ⟨hmain chunks, ?_⟩, by decide, by decide⟩
  rw [hmain chunks]
  by_cases h : specSSEConcat chunks = ""
  · simp [h]
  · simp [h]

/-! ### Retry lemmas -/

theorem runRetry_attempts_le {E T : Type} (op : Nat → Except E T) :
    ∀ (r k : Nat) (last : Option E), (runRetry op k r last).attemptsMade ≤ r := by
  intro r
  induction r with
  | zero => intro k last; simp [runRetry]
  | succ m ih =>
    intro k last
    unfold runRetry
    cases op k with
    | ok v => simp
    | error e =>
      by_cases hm : m = 0
      · simp [hm]
      · simp only [hm, if_false]
        have := ih (k + 1) (some e)
        simp
        omega

theorem runRetry_attempts_pos {E T : Type} (op : Nat → Except E T) :
    ∀ (r k : Nat) (last : Option E), 1 ≤ r →
      1 ≤ (runRetry op k r last).attemptsMade := by
  intro r k last hr
  match r, hr with
  | m + 1, _ =>
    unfold runRetry
    cases op k with
    | ok v => simp
    | error e =>
      by_cases hm : m = 0
      · simp [hm]
      · simp [hm]

theorem runRetry_delays {E T : Type} (op : Nat → Except E T) :
    ∀ (r k : Nat) (last : Option E),
      (runRetry op k r last).delays =
        (List.range ((runRetry op k r last).attemptsMade - 1)).map
          fun i => backoffDelay (k + i) := by
  intro r
  induction r with
  | zero => intro k last; simp [runRetry]
  | succ m ih =>
    intro k last
    unfold runRetry
    cases op k with
    | ok v => simp
    | error e =>
      by_cases hm : m = 0
      · simp [hm]
      · simp only [hm, if_false]
        have hpos : 1 ≤ (runRetry op (k + 1) m (some e)).attemptsMade :=
          runRetry_attempts_pos op m (k + 1) (some e) (by omega)
        have hm1 : (runRetry op (k + 1) m (some e)).attemptsMade - 1 + 1 =
            (runRetry op (k + 1) m (some e)).attemptsMade := by omega
        simp only [Nat.add_sub_cancel]
        rw [← hm1, List.range_succ_eq_map, List.map_cons, List.map_map]
        have harg : (fun i => backoffDelay (k + i)) ∘ Nat.succ =
            fun i => backoffDelay (k + 1 + i) := by
          funext i
          simp [Function.comp]
          congr 1
          omega
        rw [harg, ← ih (k + 1) (some e)]
        simp

theorem runRetry_allfail {E T : Type} (op : Nat → Except E T) (e : Nat → E)
    (h : ∀ j, op j = .error (e j)) :
    ∀ (r k : Nat) (last : Option E), 1 ≤ r →
      (runRetry op k r last).result = .error (some (e (k + r - 1))) := by
  intro r
  induction r with
  | zero => intro k last hr; omega
  | succ m ih =>
    intro k last _
    unfold runRetry
    rw [h k]
    by_cases hm : m = 0
    · subst hm
      simp
    · simp only [hm, if_false]
      have hres := ih (k + 1) (some (e k)) (by omega)
      have hidx : k + 1 + m - 1 = k + (m + 1) - 1 := by omega
      rw [hidx] at hres
      simp only [hres]

/-- C5: `executeWithRetry` makes at most the configured number of
attempts; after each failing attempt `k` that is not the last, it waits
exactly `backoffDelay k = min(1000 * 2^(k-1), 5000)` milliseconds (the
delay list is exactly `backoffDelay` over attempts `1..attemptsMade-1`);
and when every attempt fails, the surfaced result is the last attempt's
error (which the completion operation wraps as a server-side completion
failure). -/
theorem c5_retry_policy {E T : Type} : ∀ (maxR : Nat) (op : Nat → Except E T),
    (executeWithRetry maxR op).attemptsMade ≤ maxR ∧
    (executeWithRetry maxR op).delays =
      (List.range ((executeWithRetry maxR op).attemptsMade - 1)).map
        (fun i => backoffDelay (i + 1)) ∧
    backoffDelay = (fun k => min (1000 * 2 ^ (k - 1)) 5000) ∧
    (∀ e : Nat → E, (∀ j, op j = .error (e j)) → 1 ≤ maxR →
      (executeWithRetry maxR op).result = .error (some (e maxR))) := by
  intro maxR op
  refine ⟨runRetry_attempts_le op maxR 1 none, ?_, rfl, ?_⟩
  · have := runRetry_delays op maxR 1 none
    unfold executeWithRetry
    rw [this]
    congr 1
    funext i
    congr 1
    omega
  · intro e he hmax
    have hres := runRetry_allfail op e he maxR 1 none hmax
    have hidx : 1 + maxR - 1 = maxR := by omega
    rw [hidx] at hres
    unfold executeWithRetry
    rw [hres]

/-- C5 witness: three attempts that all fail with error 7 produce exactly
the delays 1000 ms and 2000 ms and surface the last error. -/
theorem c5_retry_policy_witness :
    (executeWithRetry 3 fun _ => (Except.error 7 : Except Nat Nat)).attemptsMade ≤ 3 ∧
    (executeWithRetry 3 fun _ => (Except.error 7 : Except Nat Nat)).result =
      .error (some 7) ∧
    (executeWithRetry 3 fun _ => (Except.error 7 : Except Nat Nat)).delays =
      [1000, 2000] :=
  ⟨(c5_retry_policy 3 fun _ => Except.error 7).1,
   (c5_retry_policy 3 fun _ => Except.error 7).2.2.2 (fun _ => 7) (fun _ => rfl)
     (by decide),
   by decide⟩

/-! ### Single-flight lemmas -/

/-- Invariant holding from the first entry until the flight resolves: no
cached token, flight 0 is the unique in-flight refresh, no exchange has
happened yet, and every caller is either still to enter or awaiting
flight 0. -/
def InvB {n : Nat} (st : TMState n) : Prop :=
  st.copilotToken = none ∧ st.inflight = some 0 ∧ st.nextFlight = 1 ∧
  st.exchanges = 0 ∧
  ∀ j, st.callers j = .ready ∨ st.callers j = .waitingFlight 0

theorem runTM_append {n : Nat} (oracle : Nat → FlightOutcome) :
    ∀ (l1 l2 : List (TMLabel n)) (st : TMState n),
      runTM oracle st (l1 ++ l2) = runTM oracle (runTM oracle st l1) l2 := by
  intro l1
  induction l1 with
  | nil => intro l2 st; rfl
  | cons l ls ih =>
    intro l2 st
    simp only [List.cons_append, runTM]
    exact ih l2 (stepTM oracle st l)

theorem enter_init {n : Nat} (i : Fin n) :
    InvB (enterStep (initTM n) i) ∧
    (enterStep (initTM n) i).callers i = .waitingFlight 0 := by
  have hstep : enterStep (initTM n) i =
      { copilotToken := none, expiresAt := none, now := 0, inflight := some 0,
        nextFlight := 1, exchanges := 0,
        callers := Function.update (fun _ => .ready) i (.waitingFlight 0) } := by
    simp [enterStep, initTM, startOrJoin]
  rw [hstep]
  refine ⟨⟨rfl, rfl, rfl, rfl, ?_⟩, ?_⟩
  · intro j
    by_cases hj : j = i
    · subst hj
      simp
    · simp [Function.update_apply, hj]
  · simp

theorem enter_preserve {n : Nat} (st : TMState n) (i : Fin n) (h : InvB st) :
    InvB (enterStep st i) ∧
    (enterStep st i).callers i = .waitingFlight 0 ∧
    ∀ j, st.callers j = .waitingFlight 0 →
      (enterStep st i).callers j = .waitingFlight 0 := by
  obtain ⟨hc, hf, hn, he, hcal⟩ := h
  cases hcase : st.callers i with
  | ready =>
    have hstep : enterStep st i =
        { st with callers := Function.update st.callers i (.waitingFlight 0) } := by
      simp [enterStep, startOrJoin, hcase, hc, hf]
    rw [hstep]
    refine ⟨⟨hc, hf, hn, he, ?_⟩, ?_, ?_⟩
    · intro j
      by_cases hj : j = i
      · subst hj
        simp
      · simpa [Function.update_apply, hj] using hcal j
    · simp
    · intro j hj
      by_cases hji : j = i
      · subst hji
        simp
      · simpa [Function.update_apply, hji] using hj
  | waitingFlight f =>
    have hf0 : f = 0 := by
      have := hcal i
      rw [hcase] at this
      rcases this with h1 | h1
      · exact absurd h1 (by simp)
      · simpa using h1
    subst hf0
    have hstep : enterStep st i = st := by
      unfold enterStep
      rw [hcase]
    rw [hstep]
    exact ⟨⟨hc, hf, hn, he, hcal⟩, hcase, fun j hj => hj⟩
  | gotToken t =>
    exfalso
    have := hcal i
    rw [hcase] at this
    rcases this with h1 | h1 <;> simp at h1
  | gotError =>
    exfalso
    have := hcal i
    rw [hcase] at this
    rcases this with h1 | h1 <;> simp at h1

theorem runEnters {n : Nat} (oracle : Nat → FlightOutcome) :
    ∀ (es : List (Fin n)) (st : TMState n), InvB st →
      InvB (runTM oracle st (es.map TMLabel.enter)) ∧
      ∀ j, (j ∈ es ∨ st.callers j = .waitingFlight 0) →
        (runTM oracle st (es.map TMLabel.enter)).callers j = .waitingFlight 0 := by
  intro es
  induction es with
  | nil =>
    intro st h
    refine ⟨h, ?_⟩
    intro j hj
    rcases hj with hj | hj
    · simp at hj
    · exact hj
  | cons i es' ih =>
    intro st h
    have h1 := enter_preserve st i h
    have ih' := ih (enterStep st i) h1.1
    simp only [List.map_cons, runTM, stepTM]
    refine ⟨ih'.1, ?_⟩
    intro j hj
    rcases hj with hj | hj
    · rcases List.mem_cons.mp hj with hj | hj
      · subst hj
        exact ih'.2 j (Or.inr h1.2.1)
      · exact ih'.2 j (Or.inl hj)
    · exact ih'.2 j (Or.inr (h1.2.2 j hj))

theorem resolve_final {n : Nat} (oracle : Nat → FlightOutcome) (st : TMState n)
    (h : InvB st) (hall : ∀ j, st.callers j = .waitingFlight 0) :
    (resolveStep oracle st).exchanges = 1 ∧
    ∀ j, (resolveStep oracle st).callers j = flightResult (oracle 0) := by
  obtain ⟨hc, hf, hn, he, _⟩ := h
  cases ho : oracle 0 with
  | success tok =>
    have hstep : resolveStep oracle st =
        { st with
          copilotToken := some tok
          inflight := none
          exchanges := st.exchanges + 1
          callers := fun j => resumeCaller 0 (.success tok) (st.callers j) } := by
      simp [resolveStep, hf, ho]
    rw [hstep]
    refine ⟨by simp [he], ?_⟩
    intro j
    simp [hall j, resumeCaller, flightResult, ho]
  | failure =>
    have hstep : resolveStep oracle st =
        { st with
          inflight := none
          exchanges := st.exchanges + 1
          callers := fun j => resumeCaller 0 .failure (st.callers j) } := by
      simp [resolveStep, hf, ho]
    rw [hstep]
    refine ⟨by simp [he], ?_⟩
    intro j
    simp [hall j, resumeCaller, flightResult, ho]

/-- C1: in the run-to-completion interleaving model, for every group of
callers all of which enter `getValidToken()` (in any order, duplicate
entries allowed) before the refresh flight resolves, starting from a
state with no cached credential: exactly one upstream token exchange is
performed, and every caller ends with the same result — the shared
flight's token on success, or the shared failure. -/
theorem c1_single_flight : ∀ (n : Nat) (oracle : Nat → FlightOutcome)
    (es : List (Fin n)), 0 < n → (∀ i : Fin n, i ∈ es) →
    (runTM oracle (initTM n) (es.map TMLabel.enter ++ [TMLabel.resolve])).exchanges = 1 ∧
    ∀ i : Fin n,
      (runTM oracle (initTM n) (es.map TMLabel.enter ++ [TMLabel.resolve])).callers i =
        flightResult (oracle 0) := by
  intro n oracle es hn hall
  cases es with
  | nil => exact absurd (hall ⟨0, hn⟩) (by simp)
  | cons i es' =>
    rw [runTM_append]
    simp only [List.map_cons, runTM, stepTM]
    have h1 := enter_init (n := n) i
    have h2 := runEnters oracle es' (enterStep (initTM n) i) h1.1
    have hwait : ∀ j, (runTM oracle (enterStep (initTM n) i)
        (es'.map TMLabel.enter)).callers j = .waitingFlight 0 := by
      intro j
      rcases List.mem_cons.mp (hall j) with hj | hj
      · subst hj
        exact h2.2 j (Or.inr h1.2)
      · exact h2.2 j (Or.inl hj)
    have h3 := resolve_final oracle _ h2.1 hwait
    exact h3

/-- C1 witness: two callers entering before the flight resolves, with a
successful exchange — one exchange happens and both callers get the same
token. -/
theorem c1_single_flight_witness :
    (runTM (fun _ => FlightOutcome.success "tok") (initTM 2)
      (([0, 1] : List (Fin 2)).map TMLabel.enter ++ [TMLabel.resolve])).exchanges = 1 ∧
    (runTM (fun _ => FlightOutcome.success "tok") (initTM 2)
      (([0, 1] : List (Fin 2)).map TMLabel.enter ++ [TMLabel.resolve])).callers 0 =
      .gotToken "tok" ∧
    (runTM (fun _ => FlightOutcome.success "tok") (initTM 2)
      (([0, 1] : List (Fin 2)).map TMLabel.enter ++ [TMLabel.resolve])).callers 1 =
      .gotToken "tok" :=
  ⟨(c1_single_flight 2 (fun _ => .success "tok") [0, 1] (by decide) (by decide)).1,
   (c1_single_flight 2 (fun _ => .success "tok") [0, 1] (by decide) (by decide)).2 0,
   (c1_single_flight 2 (fun _ => .success "tok") [0, 1] (by decide) (by decide)).2 1⟩

end CopilotApi
